import Mathlib

/-!
Verification of the ZFS dataset lifecycle orchestrator (`src/src/lib.rs`).

Rust strings are modelled as `List Char` (type `Str`). Whitespace is modelled
by `Char.isWhitespace` (ASCII whitespace), which agrees with Rust on every
character appearing in this development. Process execution is modelled by an
`ExecResult` value recording either a spawn failure or the captured output and
exit status of the child; lifecycle operations additionally return the number
of external action invocations they performed, so that idempotence and
precondition claims can be stated.
-/

namespace Zfs

/-- A Rust string, modelled as a list of characters. -/
abbrev Str := List Char

/-- Whitespace predicate used throughout the model (Rust `char::is_whitespace`
restricted to ASCII, which is all this code ever meets). -/
def isWs (c : Char) : Bool := c.isWhitespace

/-- Rust `str::trim`: drop leading and trailing whitespace. -/
def trim (s : Str) : Str :=
  ((s.dropWhile isWs).reverse.dropWhile isWs).reverse

/-- Rust `str::split(sep)`: split at every occurrence of `sep`, keeping empty
parts (so `n` separators yield `n+1` parts). -/
def splitChar (sep : Char) : Str → List Str
  | [] => [[]]
  | c :: cs =>
    if c = sep then [] :: splitChar sep cs
    else
      match splitChar sep cs with
      | [] => [[c]]
      | p :: ps => (c :: p) :: ps

/-- One step of `splitWs`: the accumulator is the current (partial) field and
the finished fields to the right. -/
def splitWsStep (c : Char) (acc : Str × List Str) : Str × List Str :=
  if isWs c then
    if acc.1 = [] then acc else ([], acc.1 :: acc.2)
  else (c :: acc.1, acc.2)

/-- Rust `str::split_whitespace`: maximal runs of non-whitespace characters. -/
def splitWs (s : Str) : List Str :=
  let p := s.foldr splitWsStep ([], [])
  if p.1 = [] then p.2 else p.1 :: p.2

/-- Strip one trailing carriage return, as Rust `str::lines` does per line. -/
def stripCR (l : Str) : Str :=
  if l.getLast? = some '\r' then l.dropLast else l

/-- Rust `str::lines`: split on `'\n'`, drop a final empty line, strip a
trailing `'\r'` from every line. -/
def rustLines (s : Str) : List Str :=
  let parts := splitChar '\n' s
  let parts := if parts.getLast? = some [] then parts.dropLast else parts
  parts.map stripCR

/-- The error enumeration `ZfsError` of the source. Payload strings are kept. -/
inductive ZfsError where
  | SystemError (msg : Str)
  | DatasetNotFound (ds : Str)
  | UnexpectedStateForKey (tok : Str)
  | UnexpectedStateForMount (tok : Str)
  | IsMountedCheckCallFailed (ds msg : Str)
  | ListDatasetsMountPointsCallFailed (msg : Str)
  | ListUnmountedDatasetsCallFailed (msg : Str)
  | KeyLoadedCheckFailed (ds msg : Str)
  | LoadKeyCmdFailed (ds msg : Str)
  | UnloadKeyCmdFailed (ds msg : Str)
  | KeyNotLoadedForMount (ds : Str)
  | MountCmdFailed (ds msg : Str)
  | UnmountCmdFailed (ds msg : Str)
  | DatasetNameIsInvalid (ds : Str)
deriving DecidableEq, Repr

/-- The `DatasetMountedState` record of the source. -/
structure DatasetMountedState where
  dataset_name : Str
  is_mounted : Bool
  is_key_loaded : Bool
deriving DecidableEq, Repr

def strAvailable : Str := ("available").data
def strUnavailable : Str := ("unavailable").data
def strYes : Str := ("yes").data
def strNo : Str := ("no").data
def strDash : Str := ("-").data

/-- Function `parse_key_available_state` from the source: trim, then match
`"available"`/`"unavailable"`, any other token is an error carrying the
original (untrimmed) token. -/
def parse_key_available_state (state : Str) : Except ZfsError Bool :=
  if trim state = strAvailable then .ok true
  else if trim state = strUnavailable then .ok false
  else .error (.UnexpectedStateForKey state)

/-- Function `parse_dataset_mounted_state` from the source: trim, then match
`"yes"`/`"no"`, any other token is an error carrying the original token. -/
def parse_dataset_mounted_state (state : Str) : Except ZfsError Bool :=
  if trim state = strYes then .ok true
  else if trim state = strNo then .ok false
  else .error (.UnexpectedStateForMount state)

def ALLOWED_SYMBOLS : List Char := ['-', '_', '.', ':']

/-- Rust `str::starts_with(&ALLOWED_SYMBOLS)`: the first character is one of
the allowed symbols. -/
def startsWithSymbol : Str → Bool
  | [] => false
  | c :: _ => ALLOWED_SYMBOLS.contains c

/-- The per-part predicate `check_func` of
`check_and_sanitize_zfs_dataset_name`: all characters ASCII alphanumeric or an
allowed symbol, no whitespace, non-empty, first character not an allowed
symbol. -/
def check_func (part : Str) : Bool :=
  part.all (fun c => c.isAlphanum || ALLOWED_SYMBOLS.contains c)
  && part.all (fun c => !isWs c)
  && !part.isEmpty
  && !(startsWithSymbol part)

/-- Function `check_and_sanitize_zfs_dataset_name` from the source: trim the whole
input, require every `'/'`-separated part to satisfy `check_func`, return the
trimmed name. (The source also evaluates `check_func` on the whole trimmed
name but discards that result, so it is omitted here.) -/
def check_and_sanitize_zfs_dataset_name (zfs_dataset : Str) : Except ZfsError Str :=
  let dataset := trim zfs_dataset
  if (splitChar '/' dataset).all check_func then .ok dataset
  else .error (.DatasetNameIsInvalid dataset)

/-- Captured output and exit status of a spawned child that ran to
completion. -/
structure ExecOut where
  success : Bool
  stdout : Str
  stderr : Str
deriving DecidableEq, Repr

/-- Outcome of attempting to run an external command: either the spawn itself
failed (with the error's message), or the child ran and produced `ExecOut`. -/
inductive ExecResult where
  | spawnErr (msg : Str)
  | ran (out : ExecOut)
deriving DecidableEq, Repr

/-- The rows of a tabular listing: each output line split on whitespace,
keeping only rows with at least `n` fields — exactly the
`lines / split_whitespace / filter (len >= n)` pipeline of the source. -/
def tableRows (n : Nat) (stdout : Str) : List (List Str) :=
  ((rustLines stdout).map splitWs).filter (fun v => n ≤ v.length)

/-- A `BTreeMap` built by `collect` from `(key, value)` pairs, observed through
`get`: on duplicate keys the later pair wins. -/
def collectGet (ps : List (Str × Str)) (k : Str) : Option Str :=
  ps.foldl (fun acc p => if p.1 = k then some p.2 else acc) none

/-- First two fields of every row with at least two fields, as `(name, value)`
pairs. -/
def nameValuePairs (stdout : Str) : List (Str × Str) :=
  (tableRows 2 stdout).map (fun v => (v.headI, v.tail.headI))

/-- Function `zfs_is_key_loaded` from the source, with the external
`zfs get keystatus -H -o name,value` invocation abstracted as `env`. -/
def zfs_is_key_loaded (env : ExecResult) (zfs_dataset : Str) :
    Except ZfsError (Option Bool) :=
  match check_and_sanitize_zfs_dataset_name zfs_dataset with
  | .error e => .error e
  | .ok dataset =>
    match env with
    | .spawnErr msg => .error (.KeyLoadedCheckFailed dataset msg)
    | .ran out =>
      if out.success then
        match collectGet (nameValuePairs out.stdout) dataset with
        | some is_key_available =>
          match parse_key_available_state is_key_available with
          | .ok b => .ok (some b)
          | .error e => .error e
        | none => .ok none
      else .error (.KeyLoadedCheckFailed dataset out.stderr)

/-- Function `zfs_is_dataset_mounted` from the source, with the external
`zfs list -H -o name,mounted` invocation abstracted as `env`. The token match
is inlined in the source without trimming, and so here. -/
def zfs_is_dataset_mounted (env : ExecResult) (zfs_dataset : Str) :
    Except ZfsError (Option Bool) :=
  match check_and_sanitize_zfs_dataset_name zfs_dataset with
  | .error e => .error e
  | .ok dataset =>
    match env with
    | .spawnErr msg => .error (.IsMountedCheckCallFailed dataset msg)
    | .ran out =>
      if out.success then
        match collectGet (nameValuePairs out.stdout) dataset with
        | some is_dataset_mounted =>
          if is_dataset_mounted = strYes then .ok (some true)
          else if is_dataset_mounted = strNo then .ok (some false)
          else .error (.UnexpectedStateForMount is_dataset_mounted)
        | none => .ok none
      else .error (.IsMountedCheckCallFailed dataset out.stderr)

/-- Rust `BTreeMap::insert`: replace the value at an existing key, else append. -/
def btInsert (m : List (Str × α)) (k : Str) (v : α) : List (Str × α) :=
  match m with
  | [] => [(k, v)]
  | (k', v') :: rest =>
    if k' = k then (k, v) :: rest else (k', v') :: btInsert rest k v

/-- A `BTreeMap` built by `collect` from `(key, value)` pairs, as an association
list without duplicate keys (later pairs overwrite earlier ones). -/
def btCollect (ps : List (Str × α)) : List (Str × α) :=
  ps.foldl (fun m p => btInsert m p.1 p.2) []

/-- Function `zfs_list_datasets_mountpoints` from the source, with the external
`zfs list -H -o name,mountpoint` invocation abstracted as `env`. A `PathBuf`
is just its string. -/
def zfs_list_datasets_mountpoints (env : ExecResult) :
    Except ZfsError (List (Str × Str)) :=
  match env with
  | .spawnErr msg => .error (.ListDatasetsMountPointsCallFailed msg)
  | .ran out =>
    if out.success then .ok (btCollect (nameValuePairs out.stdout))
    else .error (.ListDatasetsMountPointsCallFailed out.stderr)

/-- One row of the encrypted-dataset listing parsed into a map entry, exactly
as the closure inside `zfs_list_encrypted_datasets` does it. -/
def encRowParse (v : List Str) : Except ZfsError (Str × DatasetMountedState) :=
  match parse_dataset_mounted_state v.tail.headI with
  | .error e => .error e
  | .ok is_mounted =>
    match parse_key_available_state v.tail.tail.headI with
    | .error e => .error e
    | .ok is_key_loaded =>
      .ok (v.headI,
        { dataset_name := v.headI
          is_mounted := is_mounted
          is_key_loaded := is_key_loaded })

/-- Rust `collect::<Result<BTreeMap, _>>`: build the map left to right, stopping at
the first erroneous element. -/
def btCollectR (acc : List (Str × α)) :
    List (Except ZfsError (Str × α)) → Except ZfsError (List (Str × α))
  | [] => .ok acc
  | .error e :: _ => .error e
  | .ok (k, v) :: xs => btCollectR (btInsert acc k v) xs

/-- The rows of the encrypted-dataset listing that survive both filters of the
source: at least three fields, and a key-status field that does not trim to
the `"-"` sentinel. -/
def encKeptRows (stdout : Str) : List (List Str) :=
  (tableRows 3 stdout).filter (fun v => (trim v.tail.tail.headI ≠ strDash : Bool))

/-- Function `zfs_list_encrypted_datasets` from the source, with the external
`zfs list -H -o name,mounted,keystatus` invocation abstracted as `env`. -/
def zfs_list_encrypted_datasets (env : ExecResult) :
    Except ZfsError (List (Str × DatasetMountedState)) :=
  match env with
  | .spawnErr msg => .error (.ListDatasetsMountPointsCallFailed msg)
  | .ran out =>
    if out.success then
      btCollectR [] ((encKeptRows out.stdout).map encRowParse)
    else .error (.ListUnmountedDatasetsCallFailed out.stderr)

/-- External invocations available to `zfs_load_key`: the key-status query and
the privileged `sudo -n zfs load-key` action. -/
structure LoadKeyWorld where
  keyQuery : ExecResult
  loadCmd : ExecResult
deriving DecidableEq, Repr

/-- Function `zfs_load_key` from the source. The second component counts how many times
the external load-key action was invoked (spawn attempts included). -/
def zfs_load_key (w : LoadKeyWorld) (zfs_dataset : Str) :
    Except ZfsError Unit × Nat :=
  match check_and_sanitize_zfs_dataset_name zfs_dataset with
  | .error e => (.error e, 0)
  | .ok dataset =>
    match zfs_is_key_loaded w.keyQuery dataset with
    | .error e => (.error e, 0)
    | .ok (some true) => (.ok (), 0)
    | .ok none => (.error (.DatasetNotFound dataset), 0)
    | .ok (some false) =>
      match w.loadCmd with
      | .spawnErr msg => (.error (.LoadKeyCmdFailed dataset msg), 1)
      | .ran out =>
        if out.success then (.ok (), 1)
        else (.error (.LoadKeyCmdFailed dataset out.stderr), 1)

/-- External invocations available to `zfs_unload_key`. -/
structure UnloadKeyWorld where
  keyQuery : ExecResult
  unloadCmd : ExecResult
deriving DecidableEq, Repr

/-- Function `zfs_unload_key` from the source, counting external unload invocations. -/
def zfs_unload_key (w : UnloadKeyWorld) (zfs_dataset : Str) :
    Except ZfsError Unit × Nat :=
  match check_and_sanitize_zfs_dataset_name zfs_dataset with
  | .error e => (.error e, 0)
  | .ok dataset =>
    match zfs_is_key_loaded w.keyQuery dataset with
    | .error e => (.error e, 0)
    | .ok (some false) => (.ok (), 0)
    | .ok none => (.error (.DatasetNotFound dataset), 0)
    | .ok (some true) =>
      match w.unloadCmd with
      | .spawnErr msg => (.error (.UnloadKeyCmdFailed dataset msg), 1)
      | .ran out =>
        if out.success then (.ok (), 1)
        else (.error (.UnloadKeyCmdFailed dataset out.stderr), 1)

/-- External invocations available to `zfs_mount_dataset`: the key-status
query, the mount-status query, and the privileged mount action. -/
structure MountWorld where
  keyQuery : ExecResult
  mountQuery : ExecResult
  mountCmd : ExecResult
deriving DecidableEq, Repr

/-- Function `zfs_mount_dataset` from the source: sanitize, require the key loaded,
short-circuit when already mounted, else invoke the external mount. The second
component counts external mount invocations. -/
def zfs_mount_dataset (w : MountWorld) (zfs_dataset : Str) :
    Except ZfsError Unit × Nat :=
  match check_and_sanitize_zfs_dataset_name zfs_dataset with
  | .error e => (.error e, 0)
  | .ok dataset =>
    match zfs_is_key_loaded w.keyQuery dataset with
    | .error e => (.error e, 0)
    | .ok none => (.error (.DatasetNotFound dataset), 0)
    | .ok (some false) => (.error (.KeyNotLoadedForMount dataset), 0)
    | .ok (some true) =>
      match zfs_is_dataset_mounted w.mountQuery dataset with
      | .error e => (.error e, 0)
      | .ok none => (.error (.DatasetNotFound dataset), 0)
      | .ok (some true) => (.ok (), 0)
      | .ok (some false) =>
        match w.mountCmd with
        | .spawnErr msg => (.error (.MountCmdFailed dataset msg), 1)
        | .ran out =>
          if out.success then (.ok (), 1)
          else (.error (.MountCmdFailed dataset out.stderr), 1)

/-- External invocations available to `zfs_unmount_dataset`. -/
structure UnmountWorld where
  mountQuery : ExecResult
  unmountCmd : ExecResult
deriving DecidableEq, Repr

/-- Function `zfs_unmount_dataset` from the source, counting external unmount
invocations. -/
def zfs_unmount_dataset (w : UnmountWorld) (zfs_dataset : Str) :
    Except ZfsError Unit × Nat :=
  match check_and_sanitize_zfs_dataset_name zfs_dataset with
  | .error e => (.error e, 0)
  | .ok dataset =>
    match zfs_is_dataset_mounted w.mountQuery dataset with
    | .error e => (.error e, 0)
    | .ok (some false) => (.ok (), 0)
    | .ok none => (.error (.DatasetNotFound dataset), 0)
    | .ok (some true) =>
      match w.unmountCmd with
      | .spawnErr msg => (.error (.UnmountCmdFailed dataset msg), 1)
      | .ran out =>
        if out.success then (.ok (), 1)
        else (.error (.UnmountCmdFailed dataset out.stderr), 1)

/-! ### Lemmas about `trim` -/

theorem dropWhile_eq_nil_of_all (l : Str) (h : ∀ c ∈ l, isWs c = true) :
    l.dropWhile isWs = [] := by
  induction l with
  | nil => rfl
  | cons c cs ih =>
    rw [List.dropWhile_cons, if_pos (h c (List.mem_cons_self c cs))]
    exact ih fun x hx => h x (List.mem_cons_of_mem c hx)

theorem dropWhile_ws_append (w t : Str) (h : ∀ c ∈ w, isWs c = true) :
    (w ++ t).dropWhile isWs = t.dropWhile isWs := by
  induction w with
  | nil => rfl
  | cons c cs ih =>
    rw [List.cons_append, List.dropWhile_cons,
      if_pos (h c (List.mem_cons_self c cs))]
    exact ih fun x hx => h x (List.mem_cons_of_mem c hx)

theorem dropWhile_eq_self_of_head (c : Char) (l : Str) (h : isWs c = false) :
    (c :: l).dropWhile isWs = c :: l := by
  rw [List.dropWhile_cons, if_neg (by simp [h])]

theorem trim_pad (w1 s w2 : Str) (hw1 : ∀ c ∈ w1, isWs c = true)
    (hw2 : ∀ c ∈ w2, isWs c = true) (hs : ∀ c ∈ s, isWs c = false) :
    trim (w1 ++ s ++ w2) = s := by
  unfold trim
  rw [List.append_assoc, dropWhile_ws_append w1 (s ++ w2) hw1]
  cases s with
  | nil =>
    simp only [List.nil_append]
    rw [dropWhile_eq_nil_of_all w2 hw2]
    rfl
  | cons c cs =>
    have hc : isWs c = false := hs c (List.mem_cons_self c cs)
    rw [List.cons_append, List.dropWhile_cons, if_neg (by simp [hc]),
      ← List.cons_append, List.reverse_append,
      dropWhile_ws_append w2.reverse (c :: cs).reverse
        (by intro x hx; exact hw2 x (List.mem_reverse.mp hx))]
    cases hrev : (c :: cs).reverse with
    | nil => exact absurd hrev (by simp)
    | cons d ds =>
      have hd : d ∈ (c :: cs).reverse := by rw [hrev]; exact List.mem_cons_self d ds
      have hdw : isWs d = false := hs d (List.mem_reverse.mp hd)
      rw [dropWhile_eq_self_of_head d ds hdw, ← hrev, List.reverse_reverse]

theorem trim_of_no_ws (s : Str) (hs : ∀ c ∈ s, isWs c = false) : trim s = s := by
  have := trim_pad [] s [] (by intro c hc; cases hc) (by intro c hc; cases hc) hs
  simpa using this

theorem dropWhile_decomp (p : Char → Bool) (l : Str) :
    ∃ t, l = t ++ l.dropWhile p := by
  induction l with
  | nil => exact ⟨[], rfl⟩
  | cons c cs ih =>
    rw [List.dropWhile_cons]
    by_cases h : p c = true
    · rw [if_pos h]
      obtain ⟨t, ht⟩ := ih
      exact ⟨c :: t, by rw [List.cons_append, ← ht]⟩
    · rw [if_neg h]
      exact ⟨[], rfl⟩

theorem dropWhile_head_not (p : Char → Bool) (l : Str) (c : Char) (t : Str)
    (h : l.dropWhile p = c :: t) : p c = false := by
  induction l with
  | nil => exact absurd h (by simp)
  | cons d ds ih =>
    rw [List.dropWhile_cons] at h
    by_cases hd : p d = true
    · rw [if_pos hd] at h
      exact ih h
    · rw [if_neg hd] at h
      cases h
      exact Bool.eq_false_iff.mpr hd

theorem dropWhile_idem (p : Char → Bool) (l : Str) :
    (l.dropWhile p).dropWhile p = l.dropWhile p := by
  cases h : l.dropWhile p with
  | nil => rfl
  | cons c t =>
    rw [List.dropWhile_cons, if_neg (by simp [dropWhile_head_not p l c t h])]

theorem trim_idem (s : Str) : trim (trim s) = trim s := by
  unfold trim
  set a := s.dropWhile isWs with ha
  cases hdt : (a.reverse.dropWhile isWs).reverse with
  | nil => simp
  | cons c t =>
    have hpre : ∃ u, a = (c :: t) ++ u := by
      obtain ⟨u, hu⟩ := dropWhile_decomp isWs a.reverse
      refine ⟨u.reverse, ?_⟩
      have : a.reverse.reverse = (u ++ a.reverse.dropWhile isWs).reverse := by
        rw [← hu]
      rw [List.reverse_reverse, List.reverse_append] at this
      rw [this]
      have : (a.reverse.dropWhile isWs).reverse = c :: t := hdt
      rw [this]
    obtain ⟨u, hu⟩ := hpre
    have hc : isWs c = false := by
      have hda : a.dropWhile isWs = a := dropWhile_idem isWs s
      rw [hu] at hda
      rw [List.cons_append] at hda
      rw [List.dropWhile_cons] at hda
      by_cases h : isWs c = true
      · exfalso
        rw [if_pos h] at hda
        have hlen : ((t ++ u).dropWhile isWs).length = (c :: (t ++ u)).length :=
          congrArg List.length hda
        obtain ⟨v, hv⟩ := dropWhile_decomp isWs (t ++ u)
        have hlen2 : (t ++ u).length = (v ++ (t ++ u).dropWhile isWs).length :=
          congrArg List.length hv
        simp only [List.length_cons, List.length_append] at hlen hlen2
        omega
      · exact Bool.eq_false_iff.mpr h
    rw [dropWhile_eq_self_of_head c t hc, ← hdt, List.reverse_reverse,
      dropWhile_idem]

/-! ### Lemmas about `splitChar` -/

theorem splitChar_ne_nil (sep : Char) (l : Str) : splitChar sep l ≠ [] := by
  cases l with
  | nil => simp [splitChar]
  | cons c cs =>
    unfold splitChar
    by_cases h : c = sep
    · simp [h]
    · rw [if_neg h]
      cases splitChar sep cs <;> simp

theorem mem_splitChar_of_mem (sep : Char) (l : Str) (c : Char) (hc : c ∈ l) :
    c = sep ∨ ∃ p ∈ splitChar sep l, c ∈ p := by
  induction l with
  | nil => cases hc
  | cons d ds ih =>
    unfold splitChar
    by_cases hd : d = sep
    · rw [if_pos hd]
      rcases List.mem_cons.mp hc with h | h
      · left; rw [h, hd]
      · rcases ih h with h' | ⟨p, hp, hcp⟩
        · left; exact h'
        · right; exact ⟨p, List.mem_cons_of_mem [] hp, hcp⟩
    · rw [if_neg hd]
      rcases List.mem_cons.mp hc with h | h
      · subst h
        cases hsp : splitChar sep ds with
        | nil => right; exact ⟨[c], List.mem_cons_self _ _, List.mem_cons_self c []⟩
        | cons p ps =>
          right; exact ⟨c :: p, List.mem_cons_self _ _, List.mem_cons_self c p⟩
      · rcases ih h with h' | ⟨p, hp, hcp⟩
        · left; exact h'
        · cases hsp : splitChar sep ds with
          | nil => exact absurd hsp (splitChar_ne_nil sep ds)
          | cons q qs =>
            rw [hsp] at hp
            rcases List.mem_cons.mp hp with hq | hq
            · right
              refine ⟨d :: q, List.mem_cons_self _ _, ?_⟩
              rw [← hq]
              exact List.mem_cons_of_mem d hcp
            · right
              exact ⟨p, List.mem_cons_of_mem _ hq, hcp⟩

theorem splitChar_no_sep (sep : Char) (l : Str) (h : ∀ c ∈ l, c ≠ sep) :
    splitChar sep l = [l] := by
  induction l with
  | nil => rfl
  | cons c cs ih =>
    unfold splitChar
    rw [if_neg (h c (List.mem_cons_self c cs)),
      ih fun x hx => h x (List.mem_cons_of_mem c hx)]

/-! ### Character-class facts -/

theorem ws_char_cases (c : Char) (h : isWs c = true) :
    c = ' ' ∨ c = '\t' ∨ c = '\r' ∨ c = '\n' := by
  simp only [isWs, Char.isWhitespace] at h
  simp only [Bool.or_eq_true, decide_eq_true_eq] at h
  tauto

theorem ws_not_allowed (c : Char) (h : isWs c = true) :
    (c.isAlphanum || ALLOWED_SYMBOLS.contains c) = false := by
  rcases ws_char_cases c h with h' | h' | h' | h' <;> subst h' <;> decide

theorem allowed_not_ws (c : Char)
    (h : (c.isAlphanum || ALLOWED_SYMBOLS.contains c) = true) : isWs c = false := by
  by_cases hw : isWs c = true
  · rw [ws_not_allowed c hw] at h
    cases h
  · exact Bool.eq_false_iff.mpr hw

theorem symbol_not_alnum (c : Char) (h : ALLOWED_SYMBOLS.contains c = true) :
    c.isAlphanum = false := by
  have : c = '-' ∨ c = '_' ∨ c = '.' ∨ c = ':' := by
    simpa [ALLOWED_SYMBOLS] using h
  rcases this with h' | h' | h' | h' <;> subst h' <;> decide

theorem alnum_not_symbol (c : Char) (h : c.isAlphanum = true) :
    ALLOWED_SYMBOLS.contains c = false := by
  by_cases hs : ALLOWED_SYMBOLS.contains c = true
  · rw [symbol_not_alnum c hs] at h
    cases h
  · exact Bool.eq_false_iff.mpr hs

theorem slash_not_ws : isWs '/' = false := by decide

theorem alnum_not_mem_symbols (c : Char) (h : c.isAlphanum = true) :
    c ∉ ALLOWED_SYMBOLS := by
  intro hm
  have hc : ALLOWED_SYMBOLS.contains c = true := List.elem_eq_true_of_mem hm
  rw [symbol_not_alnum c hc] at h
  cases h

theorem alnum_contains_false (c : Char) (h : c.isAlphanum = true) :
    ALLOWED_SYMBOLS.contains c = false := by
  by_cases hb : ALLOWED_SYMBOLS.contains c = true
  · exact absurd (List.mem_of_elem_eq_true hb) (alnum_not_mem_symbols c h)
  · exact Bool.eq_false_iff.mpr hb

/-! ### `check_func` evaluation lemmas -/

theorem check_func_false_of_bad_char (p : Str)
    (h : p.all (fun c => c.isAlphanum || ALLOWED_SYMBOLS.contains c) = false) :
    check_func p = false := by
  unfold check_func
  rw [h]
  rfl

theorem check_func_false_of_ws (p : Str)
    (h : p.all (fun c => !isWs c) = false) : check_func p = false := by
  unfold check_func
  rw [h]
  simp

theorem startsWithSymbol_cons (c : Char) (t : Str) :
    startsWithSymbol (c :: t) = ALLOWED_SYMBOLS.contains c := rfl

theorem check_func_false_of_symbol_head (c : Char) (t : Str)
    (h : ALLOWED_SYMBOLS.contains c = true) : check_func (c :: t) = false := by
  unfold check_func
  rw [startsWithSymbol_cons, h]
  simp

/-- A name every `'/'`-separated part of which is non-empty, made of ASCII
alphanumerics and the allowed symbols only, and begins with an alphanumeric
character. -/
def goodName (s : Str) : Prop :=
  ∀ part ∈ splitChar '/' s,
    part ≠ [] ∧
    (∀ c ∈ part, (c.isAlphanum || ALLOWED_SYMBOLS.contains c) = true) ∧
    (∃ c t, part = c :: t ∧ c.isAlphanum = true)

theorem goodName_no_ws (s : Str) (h : goodName s) : ∀ c ∈ s, isWs c = false := by
  intro c hc
  rcases mem_splitChar_of_mem '/' s c hc with h' | ⟨p, hp, hcp⟩
  · rw [h']
    exact slash_not_ws
  · exact allowed_not_ws c ((h p hp).2.1 c hcp)

theorem check_func_of_good (part : Str)
    (h1 : part ≠ [])
    (h2 : ∀ c ∈ part, (c.isAlphanum || ALLOWED_SYMBOLS.contains c) = true)
    (h3 : ∃ c t, part = c :: t ∧ c.isAlphanum = true) :
    check_func part = true := by
  obtain ⟨c, t, hct, hcal⟩ := h3
  subst hct
  simp only [check_func, Bool.and_eq_true, List.all_eq_true]
  refine ⟨⟨⟨fun x hx => h2 x hx, fun x hx => ?_⟩, by simp⟩, ?_⟩
  · simp [allowed_not_ws x (h2 x hx)]
  · rw [startsWithSymbol_cons, alnum_contains_false c hcal]
    rfl

/-- C4: any whitespace in the trimmed input, any character (other than the
`'/'` separator) outside the ASCII-alphanumeric-plus-symbol alphabet, any
empty `'/'`-separated segment (covering empty input and doubled separators),
and any segment led by an allowed symbol each make the validator return the
invalid-name error. -/
theorem C4_validator_rejects (s : Str)
    (h : (∃ c ∈ trim s, isWs c = true)
       ∨ (∃ c ∈ trim s, c ≠ '/' ∧ (c.isAlphanum || ALLOWED_SYMBOLS.contains c) = false)
       ∨ (∃ part ∈ splitChar '/' (trim s), part = [])
       ∨ (∃ part ∈ splitChar '/' (trim s), ∃ c t,
            part = c :: t ∧ ALLOWED_SYMBOLS.contains c = true)) :
    check_and_sanitize_zfs_dataset_name s = .error (.DatasetNameIsInvalid (trim s)) := by
  have hbad : ∃ part ∈ splitChar '/' (trim s), check_func part = false := by
    rcases h with ⟨c, hc, hws⟩ | ⟨c, hc, hne, hnal⟩ | ⟨p, hp, hpe⟩ | ⟨p, hp, c, t, hct, hsym⟩
    · rcases mem_splitChar_of_mem '/' (trim s) c hc with h' | ⟨p, hp, hcp⟩
      · rw [h'] at hws
        exact absurd hws (by simp [slash_not_ws])
      · refine ⟨p, hp, ?_⟩
        exact check_func_false_of_ws p
          (List.all_eq_false.mpr ⟨c, hcp, by simp [hws]⟩)
    · rcases mem_splitChar_of_mem '/' (trim s) c hc with h' | ⟨p, hp, hcp⟩
      · exact absurd h' hne
      · refine ⟨p, hp, ?_⟩
        exact check_func_false_of_bad_char p
          (List.all_eq_false.mpr ⟨c, hcp, Bool.eq_false_iff.mp hnal⟩)
    · refine ⟨p, hp, ?_⟩
      subst hpe
      decide
    · refine ⟨p, hp, ?_⟩
      subst hct
      exact check_func_false_of_symbol_head c t hsym
  obtain ⟨p, hp, hcf⟩ := hbad
  have hall : (splitChar '/' (trim s)).all check_func = false :=
    List.all_eq_false.mpr ⟨p, hp, by simp [hcf]⟩
  simp [check_and_sanitize_zfs_dataset_name, hall]

/-- Every string accepted by the Rust test `test_invalid_zfs_dataset_names`
is indeed rejected — and in particular the C4 hypotheses are satisfiable:
`"pool/ dataset"` (whitespace), `"pool/dataset!"` (disallowed character),
`"pool//dataset"` (empty segment), `"pool/_R"` (leading symbol). -/
theorem C4_validator_rejects_witness :
    ((∃ c ∈ trim ("pool/ dataset").data, isWs c = true)
       ∨ (∃ c ∈ trim ("pool/ dataset").data, c ≠ '/' ∧
            (c.isAlphanum || ALLOWED_SYMBOLS.contains c) = false)
       ∨ (∃ part ∈ splitChar '/' (trim ("pool/ dataset").data), part = [])
       ∨ (∃ part ∈ splitChar '/' (trim ("pool/ dataset").data), ∃ c t,
            part = c :: t ∧ ALLOWED_SYMBOLS.contains c = true)) ∧
    check_and_sanitize_zfs_dataset_name ("pool/ dataset").data
      = .error (.DatasetNameIsInvalid (trim ("pool/ dataset").data)) := by
  refine ⟨Or.inl ⟨' ', by decide, by decide⟩, ?_⟩
  exact C4_validator_rejects ("pool/ dataset").data (Or.inl ⟨' ', by decide, by decide⟩)

/-- C5: a name whose `'/'`-separated segments are all non-empty, drawn from
the allowed alphabet, and alphanumeric-led is accepted unchanged, and stays
accepted with the same result under any leading/trailing whitespace padding
of the whole input. -/
theorem C5_validator_accepts (s w1 w2 : Str) (hgood : goodName s)
    (hw1 : ∀ c ∈ w1, isWs c = true) (hw2 : ∀ c ∈ w2, isWs c = true) :
    check_and_sanitize_zfs_dataset_name s = .ok s ∧
    check_and_sanitize_zfs_dataset_name (w1 ++ s ++ w2) = .ok s := by
  have hnws : ∀ c ∈ s, isWs c = false := goodName_no_ws s hgood
  have htrim : trim s = s := trim_of_no_ws s hnws
  have htrimp : trim (w1 ++ s ++ w2) = s := trim_pad w1 s w2 hw1 hw2 hnws
  have hall : (splitChar '/' s).all check_func = true := by
    refine List.all_eq_true.mpr fun p hp => ?_
    obtain ⟨h1, h2, h3⟩ := hgood p hp
    exact check_func_of_good p h1 h2 h3
  constructor
  · simp only [check_and_sanitize_zfs_dataset_name]
    rw [htrim, if_pos hall]
  · simp only [check_and_sanitize_zfs_dataset_name]
    rw [htrimp, if_pos hall]

/-- The C5 hypotheses hold at the concrete name `"pool:1/data.set"` padded
with a leading and a trailing blank, and the validator accepts it. -/
theorem C5_validator_accepts_witness :
    check_and_sanitize_zfs_dataset_name ((" ").data ++ ("pool:1/data.set").data ++ (" ").data)
      = .ok ("pool:1/data.set").data := by
  have hgood : goodName ("pool:1/data.set").data := by
    intro part hp
    have hsp : splitChar '/' ("pool:1/data.set").data
        = [("pool:1").data, ("data.set").data] := by decide
    rw [hsp] at hp
    simp only [List.mem_cons, List.not_mem_nil, or_false] at hp
    rcases hp with h | h <;> subst h
    · exact ⟨by decide, by decide, 'p', ("ool:1").data, by decide, by decide⟩
    · exact ⟨by decide, by decide, 'd', ("ata.set").data, by decide, by decide⟩
  exact (C5_validator_accepts ("pool:1/data.set").data (" ").data (" ").data hgood
    (by decide) (by decide)).2

/-- C9: an accepted input comes back exactly as the whole-string trim of the
input, and the validator is idempotent on its own output. -/
theorem C9_validator_idempotent (s r : Str)
    (h : check_and_sanitize_zfs_dataset_name s = .ok r) :
    r = trim s ∧ check_and_sanitize_zfs_dataset_name r = .ok r := by
  unfold check_and_sanitize_zfs_dataset_name at h
  by_cases hall : (splitChar '/' (trim s)).all check_func = true
  · rw [if_pos hall] at h
    have hr : r = trim s := by
      cases h
      rfl
    subst hr
    refine ⟨rfl, ?_⟩
    unfold check_and_sanitize_zfs_dataset_name
    rw [trim_idem s, if_pos hall]
  · rw [if_neg hall] at h
    cases h

/-- The C9 hypothesis holds at the concrete input `" pool/data "`, whose
accepted form is its trim `"pool/data"`, itself accepted unchanged. -/
theorem C9_validator_idempotent_witness :
    ("pool/data").data = trim (" pool/data  ").data ∧
    check_and_sanitize_zfs_dataset_name ("pool/data").data = .ok ("pool/data").data := by
  exact C9_validator_idempotent (" pool/data  ").data ("pool/data").data rfl

/-- C6: the two status-token parsers are exact and exhaustive — `"available"`
and `"unavailable"` map to `true`/`false` for key status, `"yes"` and `"no"`
map to `true`/`false` for mount status, and every token whose trim is outside
that vocabulary yields the matching unexpected-state error carrying the
offending token. -/
theorem C6_token_parsing_exact :
    parse_key_available_state strAvailable = .ok true ∧
    parse_key_available_state strUnavailable = .ok false ∧
    parse_dataset_mounted_state strYes = .ok true ∧
    parse_dataset_mounted_state strNo = .ok false ∧
    (∀ s : Str, trim s ≠ strAvailable → trim s ≠ strUnavailable →
      parse_key_available_state s = .error (.UnexpectedStateForKey s)) ∧
    (∀ s : Str, trim s ≠ strYes → trim s ≠ strNo →
      parse_dataset_mounted_state s = .error (.UnexpectedStateForMount s)) := by
  refine ⟨rfl, rfl, rfl, rfl, fun s h1 h2 => ?_, fun s h1 h2 => ?_⟩
  · unfold parse_key_available_state
    rw [if_neg h1, if_neg h2]
  · unfold parse_dataset_mounted_state
    rw [if_neg h1, if_neg h2]

/-- The exhaustiveness hypotheses of C6 hold at the concrete token `"maybe"`,
which both parsers reject with the matching error. -/
theorem C6_token_parsing_exact_witness :
    parse_key_available_state ("maybe").data
      = .error (.UnexpectedStateForKey ("maybe").data) ∧
    parse_dataset_mounted_state ("maybe").data
      = .error (.UnexpectedStateForMount ("maybe").data) :=
  ⟨C6_token_parsing_exact.2.2.2.2.1 ("maybe").data (by decide) (by decide),
   C6_token_parsing_exact.2.2.2.2.2 ("maybe").data (by decide) (by decide)⟩

/-- C1 (code bug): on a key-status listing reporting the not-applicable
sentinel `"-"` for a dataset, `zfs_is_key_loaded` for that dataset returns the
`UnexpectedStateForKey` error rather than `Some(true)` — its own doc comment
promises `Some(true)` for a dataset that "doesn't need" a key, and the
single-query sentinel is never mapped to loaded-equivalent. -/
theorem C1_sentinel_errors_not_loaded :
    zfs_is_key_loaded (.ran ⟨true, ("tank/plain -").data, []⟩) ("tank/plain").data
      = .error (.UnexpectedStateForKey strDash) ∧
    zfs_is_key_loaded (.ran ⟨true, ("tank/plain -").data, []⟩) ("tank/plain").data
      ≠ .ok (some true) := by
  refine ⟨rfl, fun h => ?_⟩
  rw [show zfs_is_key_loaded (.ran ⟨true, ("tank/plain -").data, []⟩) ("tank/plain").data
      = .error (.UnexpectedStateForKey strDash) from rfl] at h
  cases h

/-! ### Lookup lemmas for the collected `BTreeMap`s -/

theorem collectGet_foldl_const (ps : List (Str × Str)) (k : Str)
    (h : ∀ p ∈ ps, p.1 ≠ k) (acc : Option Str) :
    ps.foldl (fun acc p => if p.1 = k then some p.2 else acc) acc = acc := by
  induction ps generalizing acc with
  | nil => rfl
  | cons q qs ih =>
    rw [List.foldl_cons, if_neg (h q (List.mem_cons_self q qs))]
    exact ih (fun p hp => h p (List.mem_cons_of_mem q hp)) acc

theorem collectGet_eq_none (ps : List (Str × Str)) (k : Str)
    (h : ∀ p ∈ ps, p.1 ≠ k) : collectGet ps k = none :=
  collectGet_foldl_const ps k h none

/-- C7: a validated dataset name absent from the name column of the listing
makes both single-dataset state queries return `Ok(None)` (absence, not an
error), while a spawn failure or a nonzero exit of the query is surfaced as
the query's distinct error value. -/
theorem C7_absent_is_none_failure_is_error :
    (∀ (out : ExecOut) (ds dataset : Str),
      check_and_sanitize_zfs_dataset_name ds = .ok dataset →
      out.success = true →
      (∀ p ∈ nameValuePairs out.stdout, p.1 ≠ dataset) →
      zfs_is_key_loaded (.ran out) ds = .ok none) ∧
    (∀ (out : ExecOut) (ds dataset : Str),
      check_and_sanitize_zfs_dataset_name ds = .ok dataset →
      out.success = true →
      (∀ p ∈ nameValuePairs out.stdout, p.1 ≠ dataset) →
      zfs_is_dataset_mounted (.ran out) ds = .ok none) ∧
    (∀ (msg ds dataset : Str),
      check_and_sanitize_zfs_dataset_name ds = .ok dataset →
      zfs_is_key_loaded (.spawnErr msg) ds
        = .error (.KeyLoadedCheckFailed dataset msg)) ∧
    (∀ (out : ExecOut) (ds dataset : Str),
      check_and_sanitize_zfs_dataset_name ds = .ok dataset →
      out.success = false →
      zfs_is_key_loaded (.ran out) ds
        = .error (.KeyLoadedCheckFailed dataset out.stderr)) ∧
    (∀ (msg ds dataset : Str),
      check_and_sanitize_zfs_dataset_name ds = .ok dataset →
      zfs_is_dataset_mounted (.spawnErr msg) ds
        = .error (.IsMountedCheckCallFailed dataset msg)) ∧
    (∀ (out : ExecOut) (ds dataset : Str),
      check_and_sanitize_zfs_dataset_name ds = .ok dataset →
      out.success = false →
      zfs_is_dataset_mounted (.ran out) ds
        = .error (.IsMountedCheckCallFailed dataset out.stderr)) := by
  refine ⟨fun out ds dataset hck hs habs => ?_,
          fun out ds dataset hck hs habs => ?_,
          fun msg ds dataset hck => ?_,
          fun out ds dataset hck hs => ?_,
          fun msg ds dataset hck => ?_,
          fun out ds dataset hck hs => ?_⟩
  · simp only [zfs_is_key_loaded, hck, hs]
    rw [collectGet_eq_none _ _ habs]
    simp
  · simp only [zfs_is_dataset_mounted, hck, hs]
    rw [collectGet_eq_none _ _ habs]
    simp
  · simp only [zfs_is_key_loaded, hck]
  · simp only [zfs_is_key_loaded, hck, hs]
    simp
  · simp only [zfs_is_dataset_mounted, hck]
  · simp only [zfs_is_dataset_mounted, hck, hs]
    simp

/-- The C7 hypotheses hold at a concrete listing that does not mention
`"tank/gone"`: both queries return `Ok(None)` there, and the same validated
name gets the distinct query-failure error when the query exits nonzero. -/
theorem C7_absent_is_none_failure_is_error_witness :
    zfs_is_key_loaded (.ran ⟨true, ("tank/data available").data, []⟩) ("tank/gone").data
      = .ok none ∧
    zfs_is_dataset_mounted (.ran ⟨true, ("tank/data yes").data, []⟩) ("tank/gone").data
      = .ok none ∧
    zfs_is_key_loaded (.ran ⟨false, [], ("boom").data⟩) ("tank/gone").data
      = .error (.KeyLoadedCheckFailed ("tank/gone").data ("boom").data) := by
  refine ⟨?_, ?_, ?_⟩
  · exact C7_absent_is_none_failure_is_error.1
      ⟨true, ("tank/data available").data, []⟩ ("tank/gone").data ("tank/gone").data
      rfl rfl (by decide)
  · exact C7_absent_is_none_failure_is_error.2.1
      ⟨true, ("tank/data yes").data, []⟩ ("tank/gone").data ("tank/gone").data
      rfl rfl (by decide)
  · exact C7_absent_is_none_failure_is_error.2.2.2.1
      ⟨false, [], ("boom").data⟩ ("tank/gone").data ("tank/gone").data rfl rfl

/-- C2: when the key-status query reports the key not loaded for a validated
dataset, `zfs_mount_dataset` returns the `KeyNotLoadedForMount` precondition
error and performs zero external mount invocations. -/
theorem C2_mount_requires_loaded_key (w : MountWorld) (ds dataset : Str)
    (hck : check_and_sanitize_zfs_dataset_name ds = .ok dataset)
    (hkey : zfs_is_key_loaded w.keyQuery dataset = .ok (some false)) :
    zfs_mount_dataset w ds = (.error (.KeyNotLoadedForMount dataset), 0) := by
  simp only [zfs_mount_dataset, hck, hkey]

/-- The C2 hypotheses hold at a concrete world whose key-status listing says
`unavailable` for `"p/d"`: mount fails with the precondition error and never
invokes the external mount, even though the external mount would succeed. -/
theorem C2_mount_requires_loaded_key_witness :
    zfs_mount_dataset
      ⟨.ran ⟨true, ("p/d unavailable").data, []⟩,
       .ran ⟨true, ("p/d no").data, []⟩,
       .ran ⟨true, [], []⟩⟩ ("p/d").data
      = (.error (.KeyNotLoadedForMount ("p/d").data), 0) :=
  C2_mount_requires_loaded_key
    ⟨.ran ⟨true, ("p/d unavailable").data, []⟩,
     .ran ⟨true, ("p/d no").data, []⟩,
     .ran ⟨true, [], []⟩⟩ ("p/d").data ("p/d").data rfl rfl

/-- C3: lifecycle operations are idempotent. Already mounted (with the key
loaded) makes `zfs_mount_dataset` succeed with zero external invocations; a
mount from the unmounted state followed, in the world the successful mount
produced (one now reporting the dataset mounted), by a second mount performs
exactly one external mount invocation in total, the second call succeeding
without a new one; and `zfs_load_key` on an already-loaded key succeeds with
zero external invocations. -/
theorem C3_lifecycle_idempotent :
    (∀ (w : MountWorld) (ds dataset : Str),
      check_and_sanitize_zfs_dataset_name ds = .ok dataset →
      zfs_is_key_loaded w.keyQuery dataset = .ok (some true) →
      zfs_is_dataset_mounted w.mountQuery dataset = .ok (some true) →
      zfs_mount_dataset w ds = (.ok (), 0)) ∧
    (∀ (w0 w1 : MountWorld) (ds dataset : Str) (out : ExecOut),
      check_and_sanitize_zfs_dataset_name ds = .ok dataset →
      zfs_is_key_loaded w0.keyQuery dataset = .ok (some true) →
      zfs_is_dataset_mounted w0.mountQuery dataset = .ok (some false) →
      w0.mountCmd = .ran out → out.success = true →
      zfs_is_key_loaded w1.keyQuery dataset = .ok (some true) →
      zfs_is_dataset_mounted w1.mountQuery dataset = .ok (some true) →
      zfs_mount_dataset w0 ds = (.ok (), 1) ∧
      zfs_mount_dataset w1 ds = (.ok (), 0) ∧
      (zfs_mount_dataset w0 ds).2 + (zfs_mount_dataset w1 ds).2 = 1) ∧
    (∀ (w : LoadKeyWorld) (ds dataset : Str),
      check_and_sanitize_zfs_dataset_name ds = .ok dataset →
      zfs_is_key_loaded w.keyQuery dataset = .ok (some true) →
      zfs_load_key w ds = (.ok (), 0)) := by
  refine ⟨fun w ds dataset hck hkey hmnt => ?_,
          fun w0 w1 ds dataset out hck hkey0 hmnt0 hcmd hsuc hkey1 hmnt1 => ?_,
          fun w ds dataset hck hkey => ?_⟩
  · simp only [zfs_mount_dataset, hck, hkey, hmnt]
  · have h0 : zfs_mount_dataset w0 ds = (.ok (), 1) := by
      simp only [zfs_mount_dataset, hck, hkey0, hmnt0, hcmd, hsuc]
      simp
    have h1 : zfs_mount_dataset w1 ds = (.ok (), 0) := by
      simp only [zfs_mount_dataset, hck, hkey1, hmnt1]
    exact ⟨h0, h1, by rw [h0, h1]; rfl⟩
  · simp only [zfs_load_key, hck, hkey]

/-- The C3 hypotheses hold at concrete worlds: before the first mount the
listing reports `"p/d"` unmounted with its key available, the external mount
succeeds, and afterwards the listing reports it mounted — the two calls
together perform exactly one external mount invocation. -/
theorem C3_lifecycle_idempotent_witness :
    zfs_mount_dataset
      ⟨.ran ⟨true, ("p/d available").data, []⟩,
       .ran ⟨true, ("p/d no").data, []⟩,
       .ran ⟨true, [], []⟩⟩ ("p/d").data = (.ok (), 1) ∧
    zfs_mount_dataset
      ⟨.ran ⟨true, ("p/d available").data, []⟩,
       .ran ⟨true, ("p/d yes").data, []⟩,
       .ran ⟨true, [], []⟩⟩ ("p/d").data = (.ok (), 0) := by
  have h := C3_lifecycle_idempotent.2.1
    ⟨.ran ⟨true, ("p/d available").data, []⟩,
     .ran ⟨true, ("p/d no").data, []⟩,
     .ran ⟨true, [], []⟩⟩
    ⟨.ran ⟨true, ("p/d available").data, []⟩,
     .ran ⟨true, ("p/d yes").data, []⟩,
     .ran ⟨true, [], []⟩⟩
    ("p/d").data ("p/d").data ⟨true, [], []⟩ rfl rfl rfl rfl rfl rfl rfl
  exact ⟨h.1, h.2.1⟩

/-! ### Provenance of entries of the collected encrypted-dataset map -/

theorem btInsert_mem {α : Type} (m : List (Str × α)) (k : Str) (v : α)
    (q : Str × α) (hq : q ∈ btInsert m k v) : q ∈ m ∨ q = (k, v) := by
  induction m with
  | nil =>
    right
    simpa [btInsert] using hq
  | cons p rest ih =>
    unfold btInsert at hq
    by_cases hk : p.1 = k
    · rw [if_pos hk] at hq
      rcases List.mem_cons.mp hq with h | h
      · right; exact h
      · left; exact List.mem_cons_of_mem p h
    · rw [if_neg hk] at hq
      rcases List.mem_cons.mp hq with h | h
      · left
        rw [h]
        exact List.mem_cons_self p rest
      · rcases ih h with h' | h'
        · left; exact List.mem_cons_of_mem p h'
        · right; exact h'

theorem btCollectR_ok_mem {α : Type} (xs : List (Except ZfsError (Str × α)))
    (acc m : List (Str × α)) (q : Str × α)
    (h : btCollectR acc xs = .ok m) (hq : q ∈ m) : q ∈ acc ∨ .ok q ∈ xs := by
  induction xs generalizing acc with
  | nil =>
    left
    cases h
    exact hq
  | cons x xs ih =>
    cases x with
    | error e => cases h
    | ok p =>
      rcases ih (btInsert acc p.1 p.2) h with h' | h'
      · rcases btInsert_mem acc p.1 p.2 q h' with h'' | h''
        · left; exact h''
        · right
          rw [h'']
          exact List.mem_cons_self _ _
      · right
        exact List.mem_cons_of_mem _ h'

theorem btCollectR_error_of_mem {α : Type} (xs : List (Except ZfsError (Str × α)))
    (acc : List (Str × α)) (e : ZfsError) (hx : .error e ∈ xs) :
    ∃ e', btCollectR acc xs = .error e' := by
  induction xs generalizing acc with
  | nil => cases hx
  | cons x xs ih =>
    cases x with
    | error e'' => exact ⟨e'', rfl⟩
    | ok p =>
      rcases List.mem_cons.mp hx with h | h
      · cases h
      · exact ih (btInsert acc p.1 p.2) h

/-- C8: every entry of a successful encrypted-dataset listing originates in a
row whose key-status column does not trim to the `"-"` sentinel (sentinel rows
are filtered out before parsing), and a parse failure on any surviving row
makes the whole query return an error. -/
theorem C8_encrypted_listing_excludes_sentinel :
    (∀ (out : ExecOut) (m : List (Str × DatasetMountedState))
       (q : Str × DatasetMountedState),
      zfs_list_encrypted_datasets (.ran out) = .ok m →
      q ∈ m →
      ∃ v ∈ tableRows 3 out.stdout,
        trim v.tail.tail.headI ≠ strDash ∧ encRowParse v = .ok q) ∧
    (∀ (out : ExecOut) (v : List Str) (e : ZfsError),
      out.success = true →
      v ∈ encKeptRows out.stdout →
      encRowParse v = .error e →
      ∃ e', zfs_list_encrypted_datasets (.ran out) = .error e') := by
  constructor
  · intro out m q h hq
    simp only [zfs_list_encrypted_datasets] at h
    by_cases hs : out.success = true
    · rw [if_pos hs] at h
      rcases btCollectR_ok_mem _ [] m q h hq with h' | h'
      · cases h'
      · obtain ⟨v, hv, hpv⟩ := List.mem_map.mp h'
        refine ⟨v, ?_, ?_, hpv⟩
        · exact (List.mem_filter.mp hv).1
        · have := (List.mem_filter.mp hv).2
          simpa using this
    · rw [if_neg hs] at h
      cases h
  · intro out v e hs hv hpe
    simp only [zfs_list_encrypted_datasets]
    rw [if_pos hs]
    refine btCollectR_error_of_mem _ [] e ?_
    have : encRowParse v ∈ (encKeptRows out.stdout).map encRowParse :=
      List.mem_map_of_mem encRowParse hv
    rw [hpe] at this
    exact this

/-- The C8 hypotheses hold at a concrete listing with one sentinel row and one
encrypted row: the sentinel row contributes nothing, the surviving entry for
`"a"` comes from its non-sentinel row. -/
theorem C8_encrypted_listing_excludes_sentinel_witness :
    ∃ v ∈ tableRows 3 ("a yes available\nb no -").data,
      trim v.tail.tail.headI ≠ strDash ∧
      encRowParse v = .ok (("a").data,
        { dataset_name := ("a").data, is_mounted := true, is_key_loaded := true }) := by
  refine C8_encrypted_listing_excludes_sentinel.1
    ⟨true, ("a yes available\nb no -").data, []⟩
    [(("a").data,
      { dataset_name := ("a").data, is_mounted := true, is_key_loaded := true })]
    (("a").data,
      { dataset_name := ("a").data, is_mounted := true, is_key_loaded := true })
    rfl (List.mem_cons_self _ _)

/-- A single line without newline or trailing carriage return passes through
`rustLines` unchanged. -/
theorem rustLines_single (l : Str) (hne : l ≠ [])
    (hnl : ∀ c ∈ l, c ≠ '\n') (hcr : l.getLast? ≠ some '\r') :
    rustLines l = [l] := by
  unfold rustLines
  rw [splitChar_no_sep '\n' l hnl]
  show List.map stripCR
    (if ([l] : List Str).getLast? = some [] then ([l] : List Str).dropLast else [l]) = [l]
  rw [show ([l] : List Str).getLast? = some l from rfl]
  rw [if_neg (fun h => hne (Option.some.inj h))]
  rw [List.map_cons, List.map_nil]
  unfold stripCR
  rw [if_neg hcr]

theorem getLast?_cons_of_ne_nil (a : Char) (l : Str) (h : l ≠ []) :
    (a :: l).getLast? = l.getLast? := by
  cases l with
  | nil => exact absurd rfl h
  | cons b m => exact List.getLast?_cons_cons

/-! ### Structure of `splitWs` on a field boundary -/

theorem foldr_splitWs_ws_cons (c : Char) (s : Str) (h : isWs c = true) :
    (c :: s).foldr splitWsStep ([], []) = ([], splitWs s) := by
  rw [List.foldr_cons]
  set p := s.foldr splitWsStep ([], []) with hp
  unfold splitWsStep
  rw [if_pos h]
  by_cases h1 : p.1 = []
  · rw [if_pos h1]
    have hs : splitWs s = p.2 := by
      simp only [splitWs]
      rw [← hp, if_pos h1]
    rw [hs, ← h1, Prod.mk.eta]
  · rw [if_neg h1]
    have hs : splitWs s = p.1 :: p.2 := by
      simp only [splitWs]
      rw [← hp, if_neg h1]
    rw [hs]

theorem foldr_splitWs_nonws_append (f t : Str) (hf : ∀ c ∈ f, isWs c = false) :
    (f ++ t).foldr splitWsStep ([], [])
      = (f ++ (t.foldr splitWsStep ([], [])).1, (t.foldr splitWsStep ([], [])).2) := by
  induction f with
  | nil =>
    rw [List.nil_append, List.nil_append, Prod.mk.eta]
  | cons c f' ih =>
    rw [List.cons_append, List.foldr_cons,
      ih fun x hx => hf x (List.mem_cons_of_mem c hx)]
    unfold splitWsStep
    rw [if_neg (by simp [hf c (List.mem_cons_self c f')]), List.cons_append]

theorem splitWs_field_break (f t : Str) (c : Char) (hf_ne : f ≠ [])
    (hf : ∀ x ∈ f, isWs x = false) (hc : isWs c = true) :
    splitWs (f ++ c :: t) = f :: splitWs t := by
  simp only [splitWs]
  rw [foldr_splitWs_nonws_append f (c :: t) hf, foldr_splitWs_ws_cons c t hc]
  simp [hf_ne, splitWs]

/-- C10: a mountpoint listing line `name<space>path` whose path contains
whitespace is recorded as mapping `name` to only the part of the path before
its first whitespace; the rest of the path is dropped. -/
theorem C10_mountpoint_truncated_at_ws (name path stderr : Str)
    (hname_ne : name ≠ []) (hname_ws : ∀ c ∈ name, isWs c = false)
    (hpath_ne : path ≠ []) (hhead : isWs path.headI = false)
    (hpath_ws : ∃ c ∈ path, isWs c = true)
    (hctl : ∀ c ∈ path, c ≠ '\n' ∧ c ≠ '\r') :
    zfs_list_datasets_mountpoints (.ran ⟨true, name ++ ' ' :: path, stderr⟩)
      = .ok [(name, path.takeWhile (fun c => !isWs c))] ∧
    path.takeWhile (fun c => !isWs c) ≠ path := by
  set f := path.takeWhile (fun c => !isWs c) with hfdef
  set r := path.dropWhile (fun c => !isWs c) with hrdef
  have hsplit : f ++ r = path := List.takeWhile_append_dropWhile _ path
  have hfws : ∀ x ∈ f, isWs x = false := by
    intro x hx
    have := List.mem_takeWhile_imp hx
    rwa [Bool.not_eq_true'] at this
  have hf_ne : f ≠ [] := by
    cases hpc : path with
    | nil => exact absurd hpc hpath_ne
    | cons c0 rest0 =>
      rw [hpc] at hhead
      simp only [List.headI] at hhead
      rw [hfdef, hpc, List.takeWhile_cons, if_pos (by simp [hhead])]
      simp
  have hr_ne : r ≠ [] := by
    intro hr0
    rw [hr0, List.append_nil] at hsplit
    obtain ⟨c, hc, hcw⟩ := hpath_ws
    rw [← hsplit] at hc
    rw [hfws c hc] at hcw
    cases hcw
  obtain ⟨c', rest', hr⟩ : ∃ c' rest', r = c' :: rest' := by
    cases hrc : r with
    | nil => exact absurd hrc hr_ne
    | cons a b => exact ⟨a, b, rfl⟩
  have hc'ws : isWs c' = true := by
    have := dropWhile_head_not (fun c => !isWs c) path c' rest' (by rw [← hrdef, hr])
    rwa [Bool.not_eq_false'] at this
  have hline_ne : (name ++ ' ' :: path) ≠ [] := by simp
  have hline_nl : ∀ c ∈ name ++ ' ' :: path, c ≠ '\n' := by
    intro c hc
    rcases List.mem_append.mp hc with h | h
    · intro he
      subst he
      have := hname_ws _ h
      rw [show isWs '\n' = true from rfl] at this
      cases this
    · rcases List.mem_cons.mp h with h' | h'
      · subst h'
        decide
      · exact (hctl c h').1
  have hline_cr : (name ++ ' ' :: path).getLast? ≠ some '\r' := by
    have hd1 : path.getLast? = some (path.getLast hpath_ne) :=
      List.getLast?_eq_getLast path hpath_ne
    have hdne : path.getLast hpath_ne ≠ '\r' :=
      (hctl _ (List.getLast_mem hpath_ne)).2
    rw [List.getLast?_append, getLast?_cons_of_ne_nil ' ' path hpath_ne, hd1]
    intro h
    have := Option.some.inj (by simpa using h)
    exact hdne this
  have h1 : rustLines (name ++ ' ' :: path) = [name ++ ' ' :: path] :=
    rustLines_single _ hline_ne hline_nl hline_cr
  have h2 : splitWs (name ++ ' ' :: path) = name :: splitWs path :=
    splitWs_field_break name path ' ' hname_ne hname_ws (by decide)
  have h3 : splitWs path = f :: splitWs rest' := by
    rw [← hsplit, hr]
    exact splitWs_field_break f rest' c' hf_ne hfws hc'ws
  have hrow : tableRows 2 (name ++ ' ' :: path) = [name :: f :: splitWs rest'] := by
    unfold tableRows
    rw [h1, List.map_cons, List.map_nil, h2, h3, List.filter_cons, List.filter_nil]
    have hlen : (2 : Nat) ≤ (name :: f :: splitWs rest').length := by
      simp only [List.length_cons]
      omega
    simp [hlen]
  have hnv : nameValuePairs (name ++ ' ' :: path) = [(name, f)] := by
    unfold nameValuePairs
    rw [hrow, List.map_cons, List.map_nil]
    rfl
  constructor
  · simp only [zfs_list_datasets_mountpoints]
    rw [if_pos trivial, hnv]
    rfl
  · intro hfp
    have : (f ++ r).length = f.length := by rw [hsplit, ← hfp]
    rw [List.length_append, hr] at this
    simp at this

/-- The C10 hypotheses hold at the concrete line `"b /mnt/with space"`: only
`"/mnt/with"` — the path up to its first space — is recorded for `"b"`. -/
theorem C10_mountpoint_truncated_at_ws_witness :
    zfs_list_datasets_mountpoints
      (.ran ⟨true, ("b").data ++ ' ' :: ("/mnt/with space").data, []⟩)
      = .ok [(("b").data, ("/mnt/with").data)] := by
  have h := C10_mountpoint_truncated_at_ws ("b").data ("/mnt/with space").data []
    (by decide) (by decide) (by decide) (by decide)
    ⟨' ', by decide, by decide⟩ (by decide)
  have he : (("/mnt/with space").data).takeWhile (fun c => !isWs c)
      = ("/mnt/with").data := by decide
  rw [← he]
  exact h.1

end Zfs
